import Mathlib

/-!
Verification of the 360blur video-anonymisation pipeline
(`blur360_worker.py` / `blur360_webapp.py`).

The development shallowly embeds the pure logic of the pipeline:

* the detection-merge loop at the end of `detect_objects`
  (worker lines 386-415, duplicated in the webapp's `process_video`),
* `compute_iou` (worker lines 170-192),
* `adjust_coords_for_wrapped_detections` (worker lines 82-95, duplicated
  in the webapp at lines 260-273),
* the batching, status-snapshot and assembly logic of the worker's
  `process_video` (lines 560-793),
* the blur loop of `process_frame` (lines 463-516),
* the webapp's `cancel_processing` endpoint (lines 1648-1718).

Machine integers are modelled as `Int`/`Nat` (all quantities stay far from
any overflow boundary), Python float division in `compute_iou` is modelled
exactly as a rational, `int(...)` truncation of a non-negative float
quotient is modelled as `Nat`/positive-`Int` division, and the filesystem
(per-frame artifacts, the durable status file) is modelled as explicit
data passed around.  Wall-clock dependent fields (messages, timestamps,
FPS figures) are omitted from the status-snapshot model; only the
`progress` and `status` fields, which the claims are about, are kept.
-/

/-- A detection box `(x, y, w, h)` as passed around by the Python code. -/
structure Box where
  x : Int
  y : Int
  w : Int
  h : Int
deriving DecidableEq, Repr, Inhabited

/-- `compute_iou` (worker lines 170-192): intersection over union of two
boxes, exactly as computed by the source (0 when the boxes are disjoint or
the union area is not positive). -/
def compute_iou (box1 box2 : Box) : ℚ :=
  let xx1 := max box1.x box2.x
  let yy1 := max box1.y box2.y
  let xx2 := min (box1.x + box1.w) (box2.x + box2.w)
  let yy2 := min (box1.y + box1.h) (box2.y + box2.h)
  if xx2 < xx1 ∨ yy2 < yy1 then 0
  else
    let intersection_area := (xx2 - xx1) * (yy2 - yy1)
    let union_area := box1.w * box1.h + box2.w * box2.h - intersection_area
    if 0 < union_area then (intersection_area : ℚ) / (union_area : ℚ) else 0

/-- The bounding box that includes both detections (worker lines 407-412). -/
def unionBox (b1 b2 : Box) : Box :=
  let merged_x := min b1.x b2.x
  let merged_y := min b1.y b2.y
  ⟨merged_x, merged_y,
    max (b1.x + b1.w) (b2.x + b2.w) - merged_x,
    max (b1.y + b1.h) (b2.y + b2.h) - merged_y⟩

/-- Inner loop of the merge phase (worker lines 397-413): scan all
detections `(j, d2)`; skip `j` when already used or equal to the seed
index `i`; when `IoU(d1, d2) > 0.3` replace the running box by
`unionBox d1 d2` (the union of the SEED `d1` with `d2`, not of the running
box with `d2` — the source recomputes `merged_box` from `x1, y1, w1, h1`)
and mark `j` used. -/
def innerMerge (d1 : Box) (i : ℕ) : List (ℕ × Box) → Box × List ℕ → Box × List ℕ
  | [], st => st
  | (j, d2) :: rest, (box, used) =>
      if j ∈ used ∨ i = j then innerMerge d1 i rest (box, used)
      else if compute_iou d1 d2 > 3/10 then
        innerMerge d1 i rest (unionBox d1 d2, j :: used)
      else innerMerge d1 i rest (box, used)

/-- Outer loop of the merge phase (worker lines 389-415): iterate the
enumerated detections; each index not yet used becomes a seed, runs the
inner loop over all detections, and appends the resulting box. -/
def outerMerge : List (ℕ × Box) → List (ℕ × Box) → List Box × List ℕ → List Box × List ℕ
  | [], _, st => st
  | (i, d1) :: rest, all, (out, used) =>
      if i ∈ used then outerMerge rest all (out, used)
      else
        let r := innerMerge d1 i all (d1, i :: used)
        outerMerge rest all (out ++ [r.1], r.2)

/-- The Detection Merger: the merge loop at the end of `detect_objects`
(worker lines 386-415; byte-identical logic in the webapp's
`process_video`, lines 2474-2503). -/
def merge_detections (dets : List Box) : List Box :=
  (outerMerge dets.enum dets.enum ([], [])).1

/-- Variant of `outerMerge` that also records, for each emitted cluster
box, the seed detection that produced it.  It performs exactly the same
computation (see `outerMerge_eq_seeds`). -/
def outerMergeSeeds :
    List (ℕ × Box) → List (ℕ × Box) → List (Box × Box) × List ℕ → List (Box × Box) × List ℕ
  | [], _, st => st
  | (i, d1) :: rest, all, (out, used) =>
      if i ∈ used then outerMergeSeeds rest all (out, used)
      else
        let r := innerMerge d1 i all (d1, i :: used)
        outerMergeSeeds rest all (out ++ [(d1, r.1)], r.2)

/-- The Detection Merger annotated with the seed detection of each
cluster: `merge_detections_seeds dets` lists `(seed, clusterBox)` pairs. -/
def merge_detections_seeds (dets : List Box) : List (Box × Box) :=
  (outerMergeSeeds dets.enum dets.enum ([], [])).1

/-- `adjust_coords_for_wrapped_detections` (worker lines 82-95, webapp
lines 260-273): shift each detection left by `pad_w`; drop it when
`x + w < 0` or `x > original_width`; otherwise clamp `x` to `≥ 0` and `w`
to `original_width - x`. -/
def adjust_coords_for_wrapped_detections : List Box → Int → Int → List Box
  | [], _, _ => []
  | b :: rest, pad_w, original_width =>
      let x := b.x - pad_w
      if x + b.w < 0 ∨ x > original_width then
        adjust_coords_for_wrapped_detections rest pad_w original_width
      else
        ⟨max 0 x, b.y, min (original_width - max 0 x) b.w, b.h⟩ ::
          adjust_coords_for_wrapped_detections rest pad_w original_width

/-- Batch size chosen by the worker's `process_video` (line 630):
`min(100, max(1, frame_count // 10))` with Python floor division. -/
def batch_size (frame_count : ℕ) : ℕ :=
  min 100 (max 1 (frame_count / 10))

/-- Slicing `xs[i:i+bs]` for `i = 0, bs, 2*bs, ...` (worker line 631),
written with the list length as fuel; `bs ≥ 1` always holds at the call
site, so the fuel suffices. -/
def chunkAux (bs : ℕ) : ℕ → List α → List (List α)
  | 0, _ => []
  | _, [] => []
  | fuel + 1, xs => xs.take bs :: chunkAux bs fuel (xs.drop bs)

/-- The frame batches of the worker's `process_video` (lines 630-631),
with each frame represented by its index. -/
def frame_batches (frame_count : ℕ) : List (List ℕ) :=
  chunkAux (batch_size frame_count) frame_count (List.range frame_count)

/-- The four status strings written to the durable status file. -/
inductive JobStatus where
  | processing
  | completed
  | cancelled
  | error
deriving DecidableEq, Repr

/-- A snapshot written to `status/{job_id}.json`; only the `progress` and
`status` fields are modelled (message, timestamp and rate figures are
wall-clock dependent). -/
structure StatusSnapshot where
  progress : ℕ
  status : JobStatus
deriving DecidableEq, Repr

/-- Snapshots written by the batch loop of the worker's `process_video`
(lines 637-736): for each batch, one pre-batch snapshot with progress
`15 + int(80 * total_processed / frame_count)` and, after the pool
finishes, two snapshots (the detailed JSON dump and the plain
`update_job_status` call) with progress computed from the new total.  The
loop never reads the status file and takes no cancellation input. -/
def batchSnaps (N : ℕ) : List (List ℕ) → ℕ → List StatusSnapshot
  | [], _ => []
  | b :: bs, p =>
      ⟨15 + 80 * p / N, .processing⟩ ::
      ⟨15 + 80 * (p + b.length) / N, .processing⟩ ::
      ⟨15 + 80 * (p + b.length) / N, .processing⟩ ::
      batchSnaps N bs (p + b.length)

/-- The full sequence of status snapshots written by a successful run of
the worker's `process_video` (lines 560-793): 5, 10, 15, 16, the
per-batch snapshots, then 95 ("Assembling final video") and the terminal
100/completed. -/
def process_video_snapshots (frame_count : ℕ) : List StatusSnapshot :=
  [⟨5, .processing⟩, ⟨10, .processing⟩, ⟨15, .processing⟩, ⟨16, .processing⟩]
    ++ batchSnaps frame_count (frame_batches frame_count) 0
    ++ [⟨95, .processing⟩, ⟨100, .completed⟩]

/-- State of the per-frame artifact `frames_dir/frame_{i:06d}.jpg` as seen
by the assembly loop: the file may be absent, present but undecodable
(`cv2.imread` returns `None`), or present and decodable. -/
inductive Artifact (α : Type) where
  | missing
  | unreadable
  | present (f : α)
deriving DecidableEq, Repr

/-- The assembly loop of the worker's `process_video` (lines 756-766):
for `i = 0 .. frame_count-1`, write the decoded artifact when the file
exists and decodes, write a blank frame when the file is absent, and —
exactly as in the source — write nothing when the file exists but
`cv2.imread` returns `None`. -/
def assemble_frames (frame_count : ℕ) (art : ℕ → Artifact α) (blank : α) : List α :=
  (List.range frame_count).foldl
    (fun out i =>
      match art i with
      | .present f => out ++ [f]
      | .unreadable => out
      | .missing => out ++ [blank])
    []

/-- Result of the webapp's `/cancel/<job_id>` endpoint: HTTP 404 for an
unknown job id, otherwise the success JSON. -/
inductive CancelResult where
  | notFound
  | accepted
deriving DecidableEq, Repr

/-- The snapshot `cancel_processing` writes to the durable status file
(webapp lines 1701-1710): progress 0, status `cancelled`. -/
def cancelSnapshot : StatusSnapshot := ⟨0, .cancelled⟩

/-- `cancel_processing` (webapp lines 1648-1718), with `processing_jobs`
and the status-file directory modelled as partial maps from job id.  An
unknown id yields 404 and changes nothing; for a known id — whatever its
current status — the recorded status is set to `cancelled`, the durable
snapshot is overwritten with `cancelSnapshot`, and success is returned.
(The signal sent to the worker process is outside this model.) -/
def cancel_processing (jobs : String → Option JobStatus)
    (files : String → Option StatusSnapshot) (job_id : String) :
    CancelResult × (String → Option JobStatus) × (String → Option StatusSnapshot) :=
  match jobs job_id with
  | none => (.notFound, jobs, files)
  | some _ =>
      (.accepted,
        fun id => if id = job_id then some .cancelled else jobs id,
        fun id => if id = job_id then some cancelSnapshot else files id)

/-- A frame as a pixel array indexed by (row, col). -/
def Img := Int → Int → Int

/-- A blur kernel abstracted: given the current frame and the padded
region `(x_padded, y_padded, w_padded, h_padded)`, it produces the value
of the pixel at (row, col) of the blurred region.  The Gaussian/median
combination of the source (worker lines 486-500) is one such function. -/
def BlurKernel := Img → Int → Int → Int → Int → Int → Int → Int

/-- `x_padded = max(0, x - padding)` with `padding = int(w * 0.1)`
(worker lines 469-470); for the positive `w` reaching this point the
truncation is `w / 10`. -/
def padded_x (b : Box) : Int := max 0 (b.x - b.w / 10)

/-- `y_padded = max(0, y - padding)` (worker line 471). -/
def padded_y (b : Box) : Int := max 0 (b.y - b.w / 10)

/-- `w_padded = min(frame_width - x_padded, w + 2*padding)` (line 472). -/
def padded_w (frameW : Int) (b : Box) : Int :=
  min (frameW - padded_x b) (b.w + 2 * (b.w / 10))

/-- `h_padded = min(frame_height - y_padded, h + 2*padding)` (line 473). -/
def padded_h (frameH : Int) (b : Box) : Int :=
  min (frameH - padded_y b) (b.h + 2 * (b.w / 10))

/-- One iteration of the blur loop of `process_frame` (worker lines
463-508) with `debug_mode` false: skip invalid detections, clamp the
padded region to the frame, skip when the clamped region is empty, and
overwrite exactly the pixels of the padded region with the blurred
region. -/
def applyOneBlur (blur : BlurKernel) (frameW frameH : Int) (img : Img) (b : Box) : Img :=
  if b.x < 0 ∨ b.y < 0 ∨ b.w ≤ 0 ∨ b.h ≤ 0 then img
  else if padded_w frameW b ≤ 0 ∨ padded_h frameH b ≤ 0 then img
  else
    fun r c =>
      if padded_y b ≤ r ∧ r < padded_y b + padded_h frameH b ∧
          padded_x b ≤ c ∧ c < padded_x b + padded_w frameW b then
        blur img (padded_x b) (padded_y b) (padded_w frameW b) (padded_h frameH b) r c
      else img r c

/-- The full blur loop of `process_frame` (worker lines 463-508) over the
merged detections, with `debug_mode` false. -/
def process_frame_blur (blur : BlurKernel) (frameW frameH : Int)
    (dets : List Box) (img : Img) : Img :=
  dets.foldl (fun im b => applyOneBlur blur frameW frameH im b) img

/-- Membership of pixel (row `r`, col `c`) in the padded rectangle of
detection `b` — exactly the set of pixels `applyOneBlur` may overwrite. -/
def inPaddedRegion (frameW frameH : Int) (b : Box) (r c : Int) : Prop :=
  ¬(b.x < 0 ∨ b.y < 0 ∨ b.w ≤ 0 ∨ b.h ≤ 0) ∧
  ¬(padded_w frameW b ≤ 0 ∨ padded_h frameH b ≤ 0) ∧
    (padded_y b ≤ r ∧ r < padded_y b + padded_h frameH b ∧
      padded_x b ≤ c ∧ c < padded_x b + padded_w frameW b)

instance (frameW frameH : Int) (b : Box) (r c : Int) :
    Decidable (inPaddedRegion frameW frameH b r c) := by
  unfold inPaddedRegion
  infer_instance

/-- Claim C1 (counterexample): the Detection Merger does NOT always output
the tight enclosing rectangle of the seed and every absorbed detection,
and a pair with IoU > 0.3 CAN leave a box equal to one of the pair alone.
With A = (0,0,10,10) and B = (1,1,8,8) ⊆ A we have IoU(A,B) = 0.64 > 0.3
yet the output is [A] itself; and for A = (0,0,10,10), B = (0,-2,10,12),
C = (0,0,10,11) (both B and C overlap A above the threshold) the output
box (0,0,10,11) is the union of the seed A with the LAST absorbed
detection C only — the tight enclosing rectangle of all three is
(0,-2,10,13). -/
theorem C1_counterexample :
    compute_iou ⟨0,0,10,10⟩ ⟨1,1,8,8⟩ > 3/10 ∧
      merge_detections [⟨0,0,10,10⟩, ⟨1,1,8,8⟩] = [⟨0,0,10,10⟩] ∧
      compute_iou ⟨0,0,10,10⟩ ⟨0,-2,10,12⟩ > 3/10 ∧
      compute_iou ⟨0,0,10,10⟩ ⟨0,0,10,11⟩ > 3/10 ∧
      merge_detections [⟨0,0,10,10⟩, ⟨0,-2,10,12⟩, ⟨0,0,10,11⟩] = [⟨0,0,10,11⟩] ∧
      unionBox (unionBox ⟨0,0,10,10⟩ ⟨0,-2,10,12⟩) ⟨0,0,10,11⟩ = ⟨0,-2,10,13⟩ := by
  refine ⟨by norm_num [compute_iou], ?_, by norm_num [compute_iou],
    by norm_num [compute_iou], ?_, by norm_num [unionBox]⟩
  · norm_num [merge_detections, outerMerge, innerMerge, unionBox, compute_iou, List.enum]
  · norm_num [merge_detections, outerMerge, innerMerge, unionBox, compute_iou, List.enum]

/-- Claim C1 (amended): for a frame whose detections are exactly a pair
A, B with IoU(A,B) > 0.3, the Detection Merger outputs the single box
`unionBox A B`, the tight enclosing rectangle of the pair — which may
equal A itself when B lies inside A.  (With more than two detections the
cluster box is the enclosing rectangle of the seed and the last absorbed
detection only, as the counterexample shows.) -/
theorem C1_merge_pair (A B : Box) (h : compute_iou A B > 3/10) :
    merge_detections [A, B] = [unionBox A B] := by
  simp [merge_detections, List.enum, List.enumFrom, outerMerge, innerMerge, h]

/-- Witness for `C1_merge_pair` at A = (0,0,10,10), B = (5,0,10,10). -/
theorem C1_merge_pair_witness :
    compute_iou ⟨0,0,10,10⟩ ⟨5,0,10,10⟩ > 3/10 ∧
      merge_detections [⟨0,0,10,10⟩, ⟨5,0,10,10⟩] =
        [unionBox ⟨0,0,10,10⟩ ⟨5,0,10,10⟩] :=
  ⟨by norm_num [compute_iou],
    C1_merge_pair ⟨0,0,10,10⟩ ⟨5,0,10,10⟩ (by norm_num [compute_iou])⟩

/-- Claim C5 (counterexample): two distinct boxes in the Merger's output
can overlap with IoU above the 0.3 threshold.  For the input
[(0,0,10,10), (0,0,20,10), (11,0,10,10)] the first detection absorbs the
second (IoU 1/2), while the third has IoU 1/19 ≤ 0.3 with the SEED
(0,0,10,10) and so stays separate; the two output boxes (0,0,20,10) and
(11,0,10,10) have IoU 3/7 > 0.3. -/
theorem C5_counterexample :
    merge_detections [⟨0,0,10,10⟩, ⟨0,0,20,10⟩, ⟨11,0,10,10⟩] =
        [⟨0,0,20,10⟩, ⟨11,0,10,10⟩] ∧
      compute_iou ⟨0,0,20,10⟩ ⟨11,0,10,10⟩ > 3/10 := by
  constructor
  · norm_num [merge_detections, outerMerge, innerMerge, unionBox, compute_iou, List.enum]
  · norm_num [compute_iou]

/-- The inner merge loop only ever adds to the set of used indices. -/
theorem innerMerge_used_subset (d1 : Box) (i : ℕ) :
    ∀ (js : List (ℕ × Box)) (st : Box × List ℕ), st.2 ⊆ (innerMerge d1 i js st).2 := by
  intro js
  induction js with
  | nil => intro st a ha; exact ha
  | cons hd tl ih =>
    intro st
    obtain ⟨box, used⟩ := st
    obtain ⟨j, d2⟩ := hd
    simp only [innerMerge]
    split
    · exact ih (box, used)
    · split
      · exact fun a ha => ih (unionBox d1 d2, j :: used) (List.mem_cons_of_mem _ ha)
      · exact ih (box, used)

/-- A detection scanned by the inner loop that is still unused afterwards
is either the seed itself or overlaps the seed by at most the threshold. -/
theorem innerMerge_not_absorbed (d1 : Box) (i : ℕ) :
    ∀ (js : List (ℕ × Box)) (st : Box × List ℕ) (j : ℕ) (d2 : Box),
      (j, d2) ∈ js → j ∉ (innerMerge d1 i js st).2 →
      i = j ∨ ¬(compute_iou d1 d2 > 3/10) := by
  intro js
  induction js with
  | nil => intro st j d2 hmem; simp at hmem
  | cons hd tl ih =>
    intro st j d2 hmem hnot
    obtain ⟨box, used⟩ := st
    obtain ⟨j0, d0⟩ := hd
    rcases List.mem_cons.mp hmem with heq | htl
    · cases heq
      simp only [innerMerge] at hnot
      by_cases h1 : j ∈ used ∨ i = j
      · rw [if_pos h1] at hnot
        rcases h1 with hj | hij
        · exact absurd (innerMerge_used_subset d1 i tl (box, used) hj) hnot
        · exact Or.inl hij
      · rw [if_neg h1] at hnot
        by_cases h2 : compute_iou d1 d2 > 3/10
        · rw [if_pos h2] at hnot
          exact absurd
            (innerMerge_used_subset d1 i tl (unionBox d1 d2, j :: used)
              (List.mem_cons_self j used)) hnot
        · exact Or.inr h2
    · simp only [innerMerge] at hnot
      split at hnot
      · exact ih _ j d2 htl hnot
      · split at hnot
        · exact ih _ j d2 htl hnot
        · exact ih _ j d2 htl hnot

/-- Invariant of the outer merge loop: the seed detections of the emitted
clusters are pairwise within the IoU threshold. -/
theorem outerMergeSeeds_pairwise (allE : List (ℕ × Box)) :
    ∀ (rest : List (ℕ × Box)) (out : List (Box × Box)) (used : List ℕ),
      (∀ p ∈ rest, p ∈ allE) →
      List.Pairwise (fun p q => compute_iou p.1 q.1 ≤ 3/10) out →
      (∀ p ∈ out, ∀ jd ∈ allE, jd.1 ∉ used → compute_iou p.1 jd.2 ≤ 3/10) →
      List.Pairwise (fun p q => compute_iou p.1 q.1 ≤ 3/10)
        (outerMergeSeeds rest allE (out, used)).1 := by
  intro rest
  induction rest with
  | nil => intro out used _ hpw _; exact hpw
  | cons hd tl ih =>
    intro out used hsub hpw hinv
    obtain ⟨i, d1⟩ := hd
    simp only [outerMergeSeeds]
    by_cases hi : i ∈ used
    · rw [if_pos hi]
      exact ih out used (fun p hp => hsub p (List.mem_cons_of_mem _ hp)) hpw hinv
    · rw [if_neg hi]
      apply ih (out ++ [(d1, (innerMerge d1 i allE (d1, i :: used)).1)])
        (innerMerge d1 i allE (d1, i :: used)).2
        (fun p hp => hsub p (List.mem_cons_of_mem _ hp))
      · rw [List.pairwise_append]
        refine ⟨hpw, List.pairwise_singleton _ _, ?_⟩
        intro p hp q hq
        rw [List.mem_singleton] at hq
        subst hq
        exact hinv p hp (i, d1) (hsub (i, d1) (List.mem_cons_self _ _)) hi
      · intro p hp jd hjd hjnot
        rcases List.mem_append.mp hp with hold | hnew
        · apply hinv p hold jd hjd
          intro hjused
          exact hjnot
            (innerMerge_used_subset d1 i allE (d1, i :: used)
              (List.mem_cons_of_mem _ hjused))
        · rw [List.mem_singleton] at hnew
          subst hnew
          obtain ⟨j, d2⟩ := jd
          rcases innerMerge_not_absorbed d1 i allE (d1, i :: used) j d2 hjd hjnot with hij | hle
          · subst hij
            exact absurd
              (innerMerge_used_subset d1 i allE (d1, i :: used)
                (List.mem_cons_self i used)) hjnot
          · exact le_of_not_lt hle

/-- The seed-annotated merge loop computes exactly the merge loop of the
source: projecting away the seeds gives `outerMerge`. -/
theorem outerMerge_eq_seeds :
    ∀ (rest all : List (ℕ × Box)) (out : List (Box × Box)) (used : List ℕ),
      outerMerge rest all (out.map Prod.snd, used) =
        ((outerMergeSeeds rest all (out, used)).1.map Prod.snd,
          (outerMergeSeeds rest all (out, used)).2) := by
  intro rest
  induction rest with
  | nil => intro all out used; simp [outerMerge, outerMergeSeeds]
  | cons hd tl ih =>
    intro all out used
    obtain ⟨i, d1⟩ := hd
    by_cases hi : i ∈ used
    · simp only [outerMerge, outerMergeSeeds, if_pos hi]
      exact ih all out used
    · simp only [outerMerge, outerMergeSeeds, if_neg hi]
      have h := ih all (out ++ [(d1, (innerMerge d1 i all (d1, i :: used)).1)])
        (innerMerge d1 i all (d1, i :: used)).2
      simpa [List.map_append] using h

/-- Claim C5 (amended): distinct boxes in the Merger's output are NOT in
general pairwise within the IoU threshold (see the counterexample); what
holds is that the SEED detections of distinct clusters are pairwise
within it: `merge_detections_seeds` pairs each output box with its seed,
projects onto `merge_detections`, and its seed components have pairwise
IoU ≤ 0.3. -/
theorem C5_seeds_pairwise (dets : List Box) :
    (merge_detections_seeds dets).map Prod.snd = merge_detections dets ∧
      List.Pairwise (fun p q => compute_iou p.1 q.1 ≤ 3/10)
        (merge_detections_seeds dets) := by
  constructor
  · unfold merge_detections merge_detections_seeds
    have h := outerMerge_eq_seeds dets.enum dets.enum [] []
    simp only [List.map_nil] at h
    rw [h]
  · exact outerMergeSeeds_pairwise dets.enum dets.enum [] []
      (fun p hp => hp) List.Pairwise.nil (by simp)

/-- The adjusted list is exactly a filterMap: a detection is dropped
precisely when `x - pad_w + w < 0` (right edge strictly left of 0) or
`x - pad_w > original_width` (strictly beyond the width); every kept
detection is clamped. -/
theorem adjust_coords_eq_filterMap (dets : List Box) (pad_w original_width : Int) :
    adjust_coords_for_wrapped_detections dets pad_w original_width =
      dets.filterMap (fun b =>
        if b.x - pad_w + b.w < 0 ∨ b.x - pad_w > original_width then none
        else some ⟨max 0 (b.x - pad_w), b.y,
          min (original_width - max 0 (b.x - pad_w)) b.w, b.h⟩) := by
  induction dets with
  | nil => rfl
  | cons b rest ih =>
    by_cases hc : b.x - pad_w + b.w < 0 ∨ b.x - pad_w > original_width
    · simp only [adjust_coords_for_wrapped_detections, List.filterMap_cons, if_pos hc, ih]
    · simp only [adjust_coords_for_wrapped_detections, List.filterMap_cons, if_neg hc, ih]

/-- Every box kept by the adjustment satisfies `0 ≤ x` and
`x + w ≤ original_width`. -/
theorem adjust_coords_mem_bounds (dets : List Box) (pad_w original_width : Int) :
    ∀ b ∈ adjust_coords_for_wrapped_detections dets pad_w original_width,
      0 ≤ b.x ∧ b.x + b.w ≤ original_width := by
  induction dets with
  | nil => intro b hb; simp [adjust_coords_for_wrapped_detections] at hb
  | cons a rest ih =>
    intro b hb
    by_cases hc : a.x - pad_w + a.w < 0 ∨ a.x - pad_w > original_width
    · rw [adjust_coords_for_wrapped_detections, if_pos hc] at hb
      exact ih b hb
    · rw [adjust_coords_for_wrapped_detections, if_neg hc] at hb
      rcases List.mem_cons.mp hb with rfl | hbr
      · refine ⟨le_max_left 0 _, ?_⟩
        have h1 : min (original_width - max 0 (a.x - pad_w)) a.w ≤
            original_width - max 0 (a.x - pad_w) := min_le_left _ _
        simp only
        linarith
      · exact ih b hbr

/-- Claim C7 (counterexample): the discard condition is NOT "corrected box
entirely at or beyond `originalWidth` or entirely left of 0".  With
`pad_w = 0`, `original_width = 10`: the box (-5,0,5,5) lies entirely left
of 0 (its right edge is exactly 0) yet is kept, clamped to (0,0,5,5) of
full width 5; and the box (10,0,5,5) lies entirely at/beyond the width
(`x = 10 = original_width`) yet is kept as the degenerate (10,0,0,5). -/
theorem C7_counterexample :
    adjust_coords_for_wrapped_detections [⟨-5,0,5,5⟩] 0 10 = [⟨0,0,5,5⟩] ∧
      adjust_coords_for_wrapped_detections [⟨10,0,5,5⟩] 0 10 = [⟨10,0,0,5⟩] := by
  constructor <;> norm_num [adjust_coords_for_wrapped_detections]

/-- Claim C7 (amended): `adjust_coords_for_wrapped_detections` subtracts
`pad_w` from each x and discards a detection exactly when the corrected
box satisfies `x + w < 0` (right edge strictly left of 0) or
`x > original_width` (left edge strictly beyond the width); every
retained detection is clamped so that `x ≥ 0` and
`x + width ≤ original_width`. -/
theorem C7_adjust_exact (dets : List Box) (pad_w original_width : Int) :
    adjust_coords_for_wrapped_detections dets pad_w original_width =
      dets.filterMap (fun b =>
        if b.x - pad_w + b.w < 0 ∨ b.x - pad_w > original_width then none
        else some ⟨max 0 (b.x - pad_w), b.y,
          min (original_width - max 0 (b.x - pad_w)) b.w, b.h⟩) ∧
    ∀ b ∈ adjust_coords_for_wrapped_detections dets pad_w original_width,
      0 ≤ b.x ∧ b.x + b.w ≤ original_width :=
  ⟨adjust_coords_eq_filterMap dets pad_w original_width,
    adjust_coords_mem_bounds dets pad_w original_width⟩

/-- Claim C8 (confirmed): for every list of detections with non-negative
widths, every `pad_w`, and every `original_width > 0`, every box returned
by `adjust_coords_for_wrapped_detections` satisfies `x ≥ 0` and
`x + width ≤ original_width`.  (The bounds in fact hold without the two
hypotheses, as `adjust_coords_mem_bounds` shows.) -/
theorem C8_adjust_bounds (dets : List Box) (pad_w original_width : Int)
    (hw : ∀ b ∈ dets, 0 ≤ b.w) (hW : 0 < original_width) :
    ∀ b ∈ adjust_coords_for_wrapped_detections dets pad_w original_width,
      0 ≤ b.x ∧ b.x + b.w ≤ original_width :=
  adjust_coords_mem_bounds dets pad_w original_width

/-- Witness for `C8_adjust_bounds` on the detections [(3,0,4,5), (9,1,7,2)]
with `pad_w = 2`, `original_width = 10`. -/
theorem C8_adjust_bounds_witness :
    (∀ b ∈ [Box.mk 3 0 4 5, Box.mk 9 1 7 2], 0 ≤ b.w) ∧ (0:Int) < 10 ∧
      ∀ b ∈ adjust_coords_for_wrapped_detections [⟨3,0,4,5⟩, ⟨9,1,7,2⟩] 2 10,
        0 ≤ b.x ∧ b.x + b.w ≤ 10 :=
  ⟨by decide, by decide,
    C8_adjust_bounds [⟨3,0,4,5⟩, ⟨9,1,7,2⟩] 2 10 (by decide) (by decide)⟩

/-- The flattening of the chunks recovers the original list whenever the
chunk size is at least 1 and the fuel is at least the list length. -/
theorem chunkAux_flatten {α : Type} (bs : ℕ) (hbs : 1 ≤ bs) :
    ∀ (fuel : ℕ) (xs : List α), xs.length ≤ fuel → (chunkAux bs fuel xs).flatten = xs := by
  intro fuel
  induction fuel with
  | zero =>
    intro xs h
    rw [Nat.le_zero, List.length_eq_zero] at h
    subst h
    rfl
  | succ n ih =>
    intro xs h
    cases xs with
    | nil => rfl
    | cons x t =>
      simp only [chunkAux, List.flatten_cons]
      rw [ih]
      · exact List.take_append_drop bs (x :: t)
      · simp only [List.length_drop, List.length_cons]
        simp only [List.length_cons] at h
        omega

/-- Every chunk is nonempty and no longer than the chunk size. -/
theorem chunkAux_mem {α : Type} (bs : ℕ) (hbs : 1 ≤ bs) :
    ∀ (fuel : ℕ) (xs : List α) (b : List α), b ∈ chunkAux bs fuel xs →
      b.length ≤ bs ∧ b ≠ [] := by
  intro fuel
  induction fuel with
  | zero => intro xs b hb; simp [chunkAux] at hb
  | succ n ih =>
    intro xs b hb
    cases xs with
    | nil => simp [chunkAux] at hb
    | cons x t =>
      simp only [chunkAux] at hb
      rcases List.mem_cons.mp hb with rfl | hbr
      · refine ⟨by simp, ?_⟩
        cases bs with
        | zero => omega
        | succ m => simp
      · exact ih _ b hbr

/-- The batch size of `process_video` is always at least 1. -/
theorem one_le_batch_size (N : ℕ) : 1 ≤ batch_size N :=
  le_min (by norm_num) (le_max_left 1 _)

/-- Claim C3 (counterexample): for `totalFrames = 237` the batch size is
`min(100, 237 // 10) = 23`, not `min(100, ceil(237/10)) = 24`, and the
frame range splits into 11 batches (10 of size 23 and 1 of size 7), not
10. -/
theorem C3_counterexample :
    batch_size 237 = 23 ∧ batch_size 237 ≠ 24 ∧
      (frame_batches 237).length = 11 ∧
      (frame_batches 237).map List.length = List.replicate 10 23 ++ [7] := by
  refine ⟨by decide, by decide, by decide, by decide⟩

/-- Claim C3 (amended): for every `totalFrames ≥ 1` the worker partitions
the frame range `[0, totalFrames)` into contiguous in-order batches of
size `min(100, max(1, totalFrames // 10))` (floor division): flattening
the batches gives back `range totalFrames`, and every batch is nonempty
with at most `batch_size` frames.  For `totalFrames = 237` this gives 11
batches, 10 of size 23 and 1 of size 7 (see the counterexample). -/
theorem C3_batches (N : ℕ) (hN : 1 ≤ N) :
    (frame_batches N).flatten = List.range N ∧
      ∀ b ∈ frame_batches N, b.length ≤ batch_size N ∧ b ≠ [] := by
  constructor
  · exact chunkAux_flatten (batch_size N) (one_le_batch_size N) N (List.range N) (by simp)
  · exact fun b hb => chunkAux_mem (batch_size N) (one_le_batch_size N) N (List.range N) b hb

/-- Witness for `C3_batches` at `totalFrames = 30`. -/
theorem C3_batches_witness :
    1 ≤ 30 ∧
      ((frame_batches 30).flatten = List.range 30 ∧
        ∀ b ∈ frame_batches 30, b.length ≤ batch_size 30 ∧ b ≠ []) :=
  ⟨by decide, C3_batches 30 (by decide)⟩

/-- When `p ≤ N`, the progress contribution `80 * p / N` never exceeds 80. -/
theorem div80_le (N p : ℕ) (hp : p ≤ N) : 80 * p / N ≤ 80 := by
  rcases Nat.eq_zero_or_pos N with h0 | hpos
  · subst h0; simp
  · have h1 : 80 * p / N ≤ 80 * N / N := Nat.div_le_div_right (by omega)
    have h2 : 80 * N / N = 80 := Nat.mul_div_cancel 80 hpos
    omega

/-- The per-batch snapshot progress values, prefixed with the progress of
the first pre-batch snapshot and suffixed with 95 and 100, form a
non-decreasing chain whenever at most `N` frames remain to be counted. -/
theorem batchSnaps_chain (N : ℕ) :
    ∀ (bs : List (List ℕ)) (p : ℕ), p + (bs.map List.length).sum ≤ N →
      List.Chain' (· ≤ ·)
        ((15 + 80 * p / N) ::
          ((batchSnaps N bs p).map StatusSnapshot.progress ++ [95, 100])) := by
  intro bs
  induction bs with
  | nil =>
    intro p hp
    have h80 : 80 * p / N ≤ 80 := div80_le N p (by simpa using hp)
    simp only [batchSnaps, List.map_nil, List.nil_append]
    rw [List.chain'_cons, List.chain'_cons]
    refine ⟨by omega, by norm_num, List.chain'_singleton 100⟩
  | cons b rest ih =>
    intro p hp
    simp only [List.map_cons, List.sum_cons] at hp
    simp only [batchSnaps, List.map_cons, List.cons_append]
    have hmono : 15 + 80 * p / N ≤ 15 + 80 * (p + b.length) / N := by
      have h : 80 * p / N ≤ 80 * (p + b.length) / N :=
        Nat.div_le_div_right (by omega)
      omega
    rw [List.chain'_cons, List.chain'_cons, List.chain'_cons]
    exact ⟨le_refl _, hmono, le_refl _, ih (p + b.length) (by omega)⟩

/-- The batches of a job cover exactly its `frame_count` frames. -/
theorem frame_batches_length_sum (N : ℕ) :
    ((frame_batches N).map List.length).sum = N := by
  have hj := chunkAux_flatten (batch_size N) (one_le_batch_size N) N (List.range N) (by simp)
  calc ((frame_batches N).map List.length).sum
      = (frame_batches N).flatten.length := (List.length_flatten _).symm
    _ = (List.range N).length := by
        rw [show (frame_batches N).flatten = List.range N from hj]
    _ = N := List.length_range N

/-- Claim C4 (counterexample): the progress values are NOT non-decreasing
up to the terminal snapshot.  For a 20-frame job the worker writes the
initial-estimate snapshot at progress 16 ("Starting processing") and then
the first pre-batch snapshot at progress `15 + int(80·0/20) = 15`, both
with the non-terminal status `processing` — a strict decrease. -/
theorem C4_counterexample :
    ((process_video_snapshots 20).map (fun s => (s.progress, s.status))).take 6 =
        [(5, .processing), (10, .processing), (15, .processing),
          (16, .processing), (15, .processing), (23, .processing)] ∧
      ¬ List.Chain' (· ≤ ·) ((process_video_snapshots 20).map StatusSnapshot.progress) := by
  constructor
  · decide
  · rw [List.chain'_iff_get]
    intro h
    have h34 := h 3 (by decide)
    revert h34
    decide

/-- Claim C4 (amended): with the single initial-estimate snapshot (the
fourth, at progress 16) removed, the progress values of the snapshots
written by the worker's `process_video` are non-decreasing all the way up
to and including the terminal `completed` snapshot; the only violation of
monotonicity in the full sequence is the drop from that snapshot (16) to
the first pre-batch snapshot (15). -/
theorem C4_progress_monotone (N : ℕ) :
    List.Chain' (· ≤ ·)
      (((process_video_snapshots N).map StatusSnapshot.progress).eraseIdx 3) := by
  have h := batchSnaps_chain N (frame_batches N) 0 (by rw [frame_batches_length_sum]; omega)
  simp only [Nat.mul_zero, Nat.zero_div, Nat.add_zero] at h
  simp only [process_video_snapshots, List.map_append, List.map_cons, List.map_nil,
    List.cons_append, List.nil_append, List.eraseIdx_cons_succ, List.eraseIdx_cons_zero]
  rw [List.chain'_cons, List.chain'_cons]
  exact ⟨by norm_num, by norm_num, h⟩

/-- Every snapshot written inside the batch loop has status `processing`. -/
theorem batchSnaps_statuses (N : ℕ) :
    ∀ (bs : List (List ℕ)) (p : ℕ),
      (batchSnaps N bs p).map StatusSnapshot.status =
        List.replicate (3 * bs.length) JobStatus.processing := by
  intro bs
  induction bs with
  | nil => intro p; rfl
  | cons b rest ih =>
    intro p
    have h3 : 3 * (b :: rest).length = ((3 * rest.length + 1) + 1) + 1 := by
      simp [List.length_cons]; ring
    rw [h3, List.replicate_succ, List.replicate_succ, List.replicate_succ]
    simp [batchSnaps, ih]

/-- Claim C2 (the worker never checks the cancellation flag): the status
sequence written by the worker's `process_video` is a function of the
frame count alone — the batch loop takes no cancellation input and reads
no status file.  For every job it writes a `processing` snapshot for all
of its batches (three per batch) and then `completed`; in particular no
snapshot ever has status `cancelled`, and a cancellation marker written
to the durable status file by `cancel_processing` mid-run is simply
overwritten by the next batch's `processing` snapshot. -/
theorem C2_worker_ignores_cancellation (N : ℕ) :
    (process_video_snapshots N).map StatusSnapshot.status =
      List.replicate (3 * (frame_batches N).length + 5) JobStatus.processing
        ++ [JobStatus.completed] := by
  have h5 : 3 * (frame_batches N).length + 5 = 4 + (3 * (frame_batches N).length + 1) := by
    ring
  rw [h5, List.replicate_add, List.replicate_add]
  simp [process_video_snapshots, List.map_append, batchSnaps_statuses, List.replicate_succ]

/-- Unfolding one step of the assembly loop: frame `N` contributes its
decoded artifact, nothing (exists-but-undecodable), or a blank frame. -/
theorem assemble_frames_succ {α : Type} (N : ℕ) (art : ℕ → Artifact α) (blank : α) :
    assemble_frames (N + 1) art blank =
      assemble_frames N art blank ++
        (match art N with
          | .present f => [f]
          | .unreadable => []
          | .missing => [blank]) := by
  unfold assemble_frames
  rw [List.range_succ, List.foldl_append]
  simp only [List.foldl_cons, List.foldl_nil]
  cases art N <;> simp

/-- An artifact store in which the artifact of frame 5 exists but fails
to decode (`cv2.imread` returns `None`); all other frames decode. -/
def artifactsWithUnreadable : ℕ → Artifact ℕ := fun i =>
  if i = 5 then .unreadable else .present i

/-- Claim C6 (counterexample): the assembly loop does NOT append one
frame per index in all failure modes.  With 10 frames whose index-5
artifact exists but fails to decode, nothing at all is appended for
index 5 — no blank substitute — and the output has 9 frames, not 10. -/
theorem C6_counterexample :
    (assemble_frames 10 artifactsWithUnreadable 0).length = 9 ∧
      assemble_frames 10 artifactsWithUnreadable 0 = [0, 1, 2, 3, 4, 6, 7, 8, 9] := by
  constructor
  · decide
  · decide

/-- Claim C6 (amended): the assembly loop iterates indices
`0 .. totalFrames-1` in order; it appends the decoded artifact when the
file exists and decodes, and a blank frame when the file is ABSENT, but
appends nothing when the file exists and fails to decode.  Provided no
artifact is in the exists-but-undecodable state, the output is one frame
per index (artifact or blank) and its frame count equals `totalFrames`. -/
theorem C6_assemble {α : Type} (N : ℕ) (art : ℕ → Artifact α) (blank : α)
    (h : ∀ i < N, art i ≠ .unreadable) :
    assemble_frames N art blank =
      (List.range N).map (fun i =>
        match art i with
        | .present f => f
        | _ => blank) ∧
      (assemble_frames N art blank).length = N := by
  have hmain : assemble_frames N art blank =
      (List.range N).map (fun i =>
        match art i with
        | .present f => f
        | _ => blank) := by
    induction N with
    | zero => rfl
    | succ n ih =>
      rw [assemble_frames_succ, List.range_succ, List.map_append]
      rw [ih (fun i hi => h i (Nat.lt_succ_of_lt hi))]
      congr 1
      have hn := h n (Nat.lt_succ_self n)
      cases hart : art n with
      | present f => simp [hart]
      | unreadable => exact absurd hart hn
      | missing => simp [hart]
  refine ⟨hmain, ?_⟩
  rw [hmain]
  simp

/-- An artifact store in which the artifact of frame 5 is absent and all
other frames decode. -/
def artifactsWithMissing : ℕ → Artifact ℕ := fun i =>
  if i = 5 then .missing else .present (i + 1)

/-- Witness for `C6_assemble`: 10 frames with the index-5 artifact
missing; a blank frame (0) is substituted and the count is 10. -/
theorem C6_assemble_witness :
    (∀ i < 10, artifactsWithMissing i ≠ .unreadable) ∧
      (assemble_frames 10 artifactsWithMissing 0 =
          (List.range 10).map (fun i =>
            match artifactsWithMissing i with
            | .present f => f
            | _ => 0) ∧
        (assemble_frames 10 artifactsWithMissing 0).length = 10) :=
  ⟨by decide, C6_assemble 10 artifactsWithMissing 0 (by decide)⟩

/-- An orchestrator job table holding one job, `job1`, already in the
terminal state `completed`. -/
def jobs0 : String → Option JobStatus := fun id =>
  if id = "job1" then some .completed else none

/-- The durable status file of `job1`: the terminal completed snapshot. -/
def files0 : String → Option StatusSnapshot := fun id =>
  if id = "job1" then some ⟨100, .completed⟩ else none

/-- Claim C9 (counterexample): cancelling a job already in a terminal
state is NOT a no-op.  For `job1` with recorded status `completed`,
`cancel_processing` returns success but overwrites the recorded status
with `cancelled` and the durable snapshot with the progress-0 `cancelled`
snapshot — both change. -/
theorem C9_counterexample :
    jobs0 "job1" = some .completed ∧
      (cancel_processing jobs0 files0 "job1").1 = .accepted ∧
      (cancel_processing jobs0 files0 "job1").2.1 "job1" = some .cancelled ∧
      (cancel_processing jobs0 files0 "job1").2.1 "job1" ≠ jobs0 "job1" ∧
      (cancel_processing jobs0 files0 "job1").2.2 "job1" = some cancelSnapshot ∧
      (cancel_processing jobs0 files0 "job1").2.2 "job1" ≠ files0 "job1" := by
  refine ⟨?_, ?_, ?_, ?_, ?_, ?_⟩ <;>
    simp [cancel_processing, jobs0, files0, cancelSnapshot]

/-- Claim C9 (amended): for every job id known to the orchestrator,
`cancel_processing` returns an accepted result, and it ALWAYS — whatever
the job's current status, terminal or not — sets the recorded status to
`cancelled` and overwrites the durable snapshot with the `cancelled`
snapshot.  Cancellation is therefore a no-op only on a job already
`cancelled`; on a `completed` or `error` job it overwrites the terminal
state (see the counterexample). -/
theorem C9_cancel_overwrites (jobs : String → Option JobStatus)
    (files : String → Option StatusSnapshot) (job_id : String) (s : JobStatus)
    (h : jobs job_id = some s) :
    (cancel_processing jobs files job_id).1 = .accepted ∧
      (cancel_processing jobs files job_id).2.1 job_id = some .cancelled ∧
      (cancel_processing jobs files job_id).2.2 job_id = some cancelSnapshot := by
  simp [cancel_processing, h]

/-- Witness for `C9_cancel_overwrites` on the completed job `job1`. -/
theorem C9_cancel_overwrites_witness :
    jobs0 "job1" = some JobStatus.completed ∧
      ((cancel_processing jobs0 files0 "job1").1 = .accepted ∧
        (cancel_processing jobs0 files0 "job1").2.1 "job1" = some .cancelled ∧
        (cancel_processing jobs0 files0 "job1").2.2 "job1" = some cancelSnapshot) :=
  ⟨by simp [jobs0], C9_cancel_overwrites jobs0 files0 "job1" .completed (by simp [jobs0])⟩

/-- A pixel outside the padded rectangle of a detection is untouched by
one iteration of the blur loop. -/
theorem applyOneBlur_outside (blur : BlurKernel) (frameW frameH : Int) (img : Img)
    (b : Box) (r c : Int) (h : ¬ inPaddedRegion frameW frameH b r c) :
    applyOneBlur blur frameW frameH img b r c = img r c := by
  unfold inPaddedRegion at h
  unfold applyOneBlur
  by_cases h1 : b.x < 0 ∨ b.y < 0 ∨ b.w ≤ 0 ∨ b.h ≤ 0
  · rw [if_pos h1]
  · rw [if_neg h1]
    by_cases h2 : padded_w frameW b ≤ 0 ∨ padded_h frameH b ≤ 0
    · rw [if_pos h2]
    · rw [if_neg h2]
      have h3 : ¬(padded_y b ≤ r ∧ r < padded_y b + padded_h frameH b ∧
          padded_x b ≤ c ∧ c < padded_x b + padded_w frameW b) := by
        intro h3
        exact h ⟨h1, h2, h3⟩
      exact if_neg h3

/-- Claim C10 (confirmed): with `debug_mode` false, the blur loop of
`process_frame` modifies only pixels inside the padded detection
rectangles — for every blur kernel, frame, detection list and pixel
outside the union of all padded regions, the processed frame agrees with
the input frame at that pixel. -/
theorem C10_blur_outside_regions (blur : BlurKernel) (frameW frameH : Int)
    (dets : List Box) (img : Img) (r c : Int)
    (h : ∀ b ∈ dets, ¬ inPaddedRegion frameW frameH b r c) :
    process_frame_blur blur frameW frameH dets img r c = img r c := by
  revert h
  induction dets generalizing img with
  | nil => intro h; rfl
  | cons b rest ih =>
    intro h
    show process_frame_blur blur frameW frameH rest
      (applyOneBlur blur frameW frameH img b) r c = img r c
    rw [ih (applyOneBlur blur frameW frameH img b)
      (fun d hd => h d (List.mem_cons_of_mem b hd))]
    exact applyOneBlur_outside blur frameW frameH img b r c
      (h b (List.mem_cons_self b rest))

/-- Witness for `C10_blur_outside_regions`: pixel (50, 50) lies outside
the padded rectangle of the detection (0,0,10,10) in a 100×100 frame and
keeps its input value 1 under a constant-0 blur kernel. -/
theorem C10_blur_outside_regions_witness :
    (∀ b ∈ [Box.mk 0 0 10 10], ¬ inPaddedRegion 100 100 b 50 50) ∧
      process_frame_blur (fun _ _ _ _ _ _ _ => 0) 100 100 [⟨0, 0, 10, 10⟩]
        (fun _ _ => 1) 50 50 = (fun _ _ => (1 : Int)) 50 50 :=
  ⟨by decide, C10_blur_outside_regions (fun _ _ _ _ _ _ _ => 0) 100 100 [⟨0, 0, 10, 10⟩]
    (fun _ _ => 1) 50 50 (by decide)⟩
